import Mathlib

deriving instance DecidableEq for Except

/-!
# A verified model of the DOL executable codec

This file gives a shallow embedding of a small Rust crate (`dol-rs`) that
reads and writes Nintendo DOL executables: the fixed 256-byte header codec
(`DolHeader::parse` / `DolHeader::write`), the section loader
(`load_sections`), and the file-level assembler and disassembler
(`DolFile::parse` / `DolFile::write`) with its capacity checks and its
contiguous layout algorithm.

Byte streams are modelled as lists of natural numbers, matching the
in-memory cursor the crate works against in its own tests; with such a
source or sink the underlying seek and read operations never fail, so the
only failure modes left are the structural ones: a header read running
past the end of the input, and the capacity check on write.  Machine
integers are modelled as natural numbers with explicit reduction modulo
2^32 (resp. 2^64) exactly where the code casts or where its unsigned
arithmetic can wrap.
-/

namespace Dol

/-- Kind of a DOL section (text or data).  Mirrors `SectionKind` in
`src/lib.rs`. -/
inductive SectionKind where
  | text
  | data
  deriving DecidableEq, Repr

/-- A section in a DOL file, owning its data.  Mirrors `Section` in
`src/lib.rs`; `address` is a `u32` there and `data` a `Vec<u8>`. -/
structure Section where
  kind : SectionKind
  address : Nat
  data : List Nat
  deriving DecidableEq, Repr

/-- A DOL executable file.  Mirrors `DolFile` in `src/lib.rs`; the three
scalar fields are `u32` there. -/
structure DolFile where
  sections : List Section
  bss_start : Nat
  bss_length : Nat
  entry_point : Nat
  deriving DecidableEq, Repr

/-- The header of a DOL file.  Mirrors `DolHeader` in `src/lib.rs`, whose
three arrays are `[u32; 18]`; here they are lists that are of length 18
whenever produced by the code. -/
structure DolHeader where
  section_offsets : List Nat
  section_addresses : List Nat
  section_lengths : List Nat
  bss_start : Nat
  bss_length : Nat
  entry_point : Nat
  deriving DecidableEq, Repr

/-- The error taxonomy of the crate, mirroring `Error` in `src/error.rs`.
The payload of the `Io` variant (the underlying `std::io::Error`) is
dropped: with an in-memory stream only the end-of-input condition can
trigger it. -/
inductive Error where
  | ioError
  | tooManySections (kind : SectionKind)
  deriving DecidableEq, Repr

/-- Reduction modulo 2^32, the model of Rust's `as u32` cast and of
wrapping `u32` arithmetic. -/
def u32 (v : Nat) : Nat := v % 2 ^ 32

/-- Big-endian byte decoding of one `u32`, the model of
`read_u32::<BE>` at absolute position `pos`: it fails (as `read_exact`
does) when fewer than four bytes remain. -/
def readU32 (src : List Nat) (pos : Nat) : Except Error Nat :=
  match src.drop pos with
  | b0 :: b1 :: b2 :: b3 :: _ => .ok (((b0 * 256 + b1) * 256 + b2) * 256 + b3)
  | _ => .error .ioError

/-- Reading `count` consecutive big-endian `u32` values starting at
absolute position `pos`, the model of `read_u32_into::<BE>` on a buffer of
`count` words. -/
def parseU32s (src : List Nat) (pos : Nat) : Nat → Except Error (List Nat)
  | 0 => .ok []
  | n + 1 => do
    let v ← readU32 src pos
    let vs ← parseU32s src (pos + 4) n
    pure (v :: vs)

/-- Model of `DolHeader::parse`: 18 offsets, then 18 addresses, then 18
lengths, then the three scalar fields, all big-endian `u32`, read from the
start of the stream.  The final `seek(SeekFrom::Current(0x1c))` over the
padding always succeeds on an in-memory cursor and the stream position is
never consulted afterwards (`load_sections` always seeks absolutely), so
it leaves no trace in the model. -/
def DolHeader.parse (src : List Nat) : Except Error DolHeader := do
  let offs ← parseU32s src 0 18
  let addrs ← parseU32s src 72 18
  let lens ← parseU32s src 144 18
  let bssStart ← readU32 src 216
  let bssLength ← readU32 src 220
  let entry ← readU32 src 224
  pure ⟨offs, addrs, lens, bssStart, bssLength, entry⟩

/-- Big-endian byte encoding of one `u32` value, the model of
`write_u32::<BE>`.  Taking each byte with division and `% 256` reduces the
argument modulo 2^32 implicitly, as storing it in a `u32` does. -/
def u32be (v : Nat) : List Nat :=
  [v / 2 ^ 24 % 256, v / 2 ^ 16 % 256, v / 2 ^ 8 % 256, v % 256]

/-- Model of `DolHeader::write`: the three 18-entry arrays, the three
scalar fields, and 28 bytes of zero padding, in that order. -/
def DolHeader.write (h : DolHeader) : List Nat :=
  (h.section_offsets.map u32be).flatten ++
    (h.section_addresses.map u32be).flatten ++
    (h.section_lengths.map u32be).flatten ++
    u32be h.bss_start ++ u32be h.bss_length ++ u32be h.entry_point ++
    List.replicate 28 0

/-- Triple zip, the model of `izip!(offsets, addresses, lengths)`. -/
def zip3 : List α → List β → List γ → List (α × β × γ)
  | a :: as, b :: bs, c :: cs => (a, b, c) :: zip3 as bs cs
  | _, _, _ => []

/-- Reading `len` bytes at absolute position `pos`, the model of
`seek(SeekFrom::Start(pos))` followed by `take(len).read_to_end(..)` on an
in-memory stream: seeking beyond the end succeeds, and the read stops at
end of input, so the result holds `min len (src.length - pos)` bytes and
never fails. -/
def readBytes (src : List Nat) (pos len : Nat) : List Nat :=
  (src.drop pos).take len

/-- Model of `load_sections`: zip the three slices, keep the slots with a
positive declared length, and load each one from the source.  On an
in-memory source no step can fail, so the `collect` of the Rust code
always succeeds. -/
def load_sections (src : List Nat) (offsets addresses lengths : List Nat)
    (kind : SectionKind) : List Section :=
  ((zip3 offsets addresses lengths).filter fun t => 0 < t.2.2).map
    fun t => ⟨kind, t.2.1, readBytes src t.1 t.2.2⟩

/-- Model of `DolFile::parse`: parse the header, load slots `[0..7)` as
text sections and slots `[7..18)` as data sections, and copy the scalar
fields. -/
def DolFile.parse (src : List Nat) : Except Error DolFile := do
  let h ← DolHeader.parse src
  let sections :=
    load_sections src (h.section_offsets.take 7) (h.section_addresses.take 7)
      (h.section_lengths.take 7) SectionKind.text ++
    load_sections src ((h.section_offsets.drop 7).take 11)
      ((h.section_addresses.drop 7).take 11)
      ((h.section_lengths.drop 7).take 11) SectionKind.data
  pure ⟨sections, h.bss_start, h.bss_length, h.entry_point⟩

/-- The text sections of a file, in input order: the model of the first
`filter` in `DolFile::write`. -/
def textSections (f : DolFile) : List Section :=
  f.sections.filter fun s => s.kind == SectionKind.text

/-- The data sections of a file, in input order: the model of the second
`filter` in `DolFile::write`. -/
def dataSections (f : DolFile) : List Section :=
  f.sections.filter fun s => s.kind == SectionKind.data

/-- The layout loop of `DolFile::write` for the sections of one kind:
starting from cursor value `cur`, pair every section with the cursor and
advance the cursor by the section's length.  The cursor is a `u32` in the
code and the advance is `current_offset += section.data.len() as u32`,
modelled with wrapping (release-profile) semantics: the cast truncates
modulo 2^32 and the addition wraps modulo 2^32.  Returns the queue of
(offset, section) pairs and the final cursor. -/
def layoutKind : List Section → Nat → List (Nat × Section) × Nat
  | [], cur => ([], cur)
  | s :: rest, cur =>
    let next := u32 (cur + u32 s.data.length)
    let (q, fin) := layoutKind rest next
    ((cur, s) :: q, fin)

/-- Filling one kind's slot range: the values computed for the sections
present, then zeroes in the remaining slots (the arrays start as
`[0; 18]`). -/
def slotFill (vals : List Nat) (cap : Nat) : List Nat :=
  vals ++ List.replicate (cap - vals.length) 0

/-- The header computed by `DolFile::write` after its capacity checks:
text sections fill slots 0..6 and data sections slots 7..17, with offsets
from the layout loop started at 0x100, addresses copied, and lengths cast
to `u32`; unused slots stay zero. -/
def computeHeader (f : DolFile) : DolHeader :=
  { section_offsets :=
      slotFill (((layoutKind (textSections f) 256).1).map Prod.fst) 7 ++
        slotFill (((layoutKind (dataSections f)
          (layoutKind (textSections f) 256).2).1).map Prod.fst) 11
    section_addresses :=
      slotFill ((textSections f).map Section.address) 7 ++
        slotFill ((dataSections f).map Section.address) 11
    section_lengths :=
      slotFill ((textSections f).map fun s => u32 s.data.length) 7 ++
        slotFill ((dataSections f).map fun s => u32 s.data.length) 11
    bss_start := f.bss_start
    bss_length := f.bss_length
    entry_point := f.entry_point }

/-- The `section_queue` built by `DolFile::write`: text sections first,
then data sections, each paired with its assigned offset. -/
def writeQueue (f : DolFile) : List (Nat × Section) :=
  (layoutKind (textSections f) 256).1 ++
    (layoutKind (dataSections f) (layoutKind (textSections f) 256).2).1

/-- The sections of a file in the order `DolFile::write` streams them. -/
def writeOrder (f : DolFile) : List Section :=
  (writeQueue f).map Prod.snd

/-- The number of zero bytes the gap-filling loop of `DolFile::write`
emits before one section: the model of `offset as u64 - current_position`
(with `0..n` iterations), where the `u64` subtraction wraps modulo 2^64
under release-profile semantics.  The assigned offset is a `u32` value, so
`offset as u64` is `offset` itself. -/
def padCount (offset pos : Nat) : Nat := (2 ^ 64 + offset - pos) % 2 ^ 64

/-- The streaming loop of `DolFile::write`: for each queued section, emit
the gap-filling padding and then the section's bytes.  `out` is the sink's
content so far; on an in-memory sink that only ever appends, the position
returned by `seek(SeekFrom::Current(0))` is the length of that content. -/
def streamSections : List (Nat × Section) → List Nat → List Nat
  | [], out => out
  | (off, s) :: rest, out =>
    streamSections rest (out ++ List.replicate (padCount off out.length) 0 ++ s.data)

/-- Model of `DolFile::write` against an initially empty in-memory sink at
position 0: the pair of the bytes written and the returned result.  The
capacity checks precede every write to the sink, so a capacity error
leaves the sink empty; after them, the header is written and the queue is
streamed, and on an in-memory sink no I/O error can occur. -/
def DolFile.write (f : DolFile) : List Nat × Except Error Unit :=
  if (textSections f).length > 7 then ([], .error (.tooManySections .text))
  else if (dataSections f).length > 11 then ([], .error (.tooManySections .data))
  else (streamSections (writeQueue f) (computeHeader f).write, .ok ())

/-- Total length of the data buffers of a list of sections. -/
def sumLens (secs : List Section) : Nat :=
  (secs.map fun s => s.data.length).sum

/-- Concatenation of the data buffers of a list of sections. -/
def concatData (secs : List Section) : List Nat :=
  (secs.map Section.data).flatten

/-- Offsets of a contiguous layout of `secs` starting at `base`, with exact
(natural-number) arithmetic: the reference value the layout loop computes
whenever its `u32` cursor does not wrap. -/
def offsetsFrom (base : Nat) : List Section → List Nat
  | [] => []
  | s :: rest => base :: offsetsFrom (base + s.data.length) rest

/-- A section value used only as the default of `List.getD` in statements
about slot contents. -/
def defaultSection : Section :=
  ⟨SectionKind.text, 0, []⟩

/-- Byte `i` of the header wire format as the specification documents it:
offsets 0x00..0x48 hold the 18 section offsets, 0x48..0x90 the 18 section
addresses, 0x90..0xD8 the 18 section lengths, then `bss_start`,
`bss_length` and `entry_point` at 0xD8, 0xDC and 0xE0, each a big-endian
unsigned 32-bit integer, and zero padding up to 0x100.  This definition is
transcribed from the spec's wire-format table, to be compared with the
code-derived `DolHeader.write`. -/
def headerByteSpec (h : DolHeader) (i : Nat) : Nat :=
  if i < 72 then h.section_offsets.getD (i / 4) 0 / 2 ^ (8 * (3 - i % 4)) % 256
  else if i < 144 then
    h.section_addresses.getD ((i - 72) / 4) 0 / 2 ^ (8 * (3 - (i - 72) % 4)) % 256
  else if i < 216 then
    h.section_lengths.getD ((i - 144) / 4) 0 / 2 ^ (8 * (3 - (i - 144) % 4)) % 256
  else if i < 220 then h.bss_start / 2 ^ (8 * (3 - (i - 216) % 4)) % 256
  else if i < 224 then h.bss_length / 2 ^ (8 * (3 - (i - 220) % 4)) % 256
  else if i < 228 then h.entry_point / 2 ^ (8 * (3 - (i - 224) % 4)) % 256
  else 0

/-! ### Concrete values used by witnesses and counterexamples -/

/-- The header of the crate's own `write_dol_header` test. -/
def fixtureHeader : DolHeader :=
  { section_offsets := [256, 265, 274, 283, 292, 301, 310, 319, 324, 329,
      334, 339, 344, 349, 354, 359, 364, 369]
    section_addresses := [16, 16, 16, 16, 16, 16, 16, 16, 16, 16, 16, 16,
      16, 16, 16, 16, 16, 16]
    section_lengths := [4, 4, 4, 4, 4, 4, 4, 5, 5, 5, 5, 5, 5, 5, 5, 5, 5, 5]
    bss_start := 0
    bss_length := 0
    entry_point := 16 }

/-- A small file whose sections interleave the two kinds (data, text,
data). -/
def fMix : DolFile :=
  ⟨[⟨SectionKind.data, 100, [1, 2, 3]⟩, ⟨SectionKind.text, 200, [9, 8]⟩,
    ⟨SectionKind.data, 300, [5]⟩], 11, 22, 33⟩

/-- A file holding one text section with an empty data buffer. -/
def fEmptySec : DolFile :=
  ⟨[⟨SectionKind.text, 5, []⟩], 1, 2, 3⟩

/-- A file with 8 text sections and 12 data sections: over both capacity
limits at once. -/
def fOverBoth : DolFile :=
  ⟨List.replicate 8 ⟨SectionKind.text, 16, [1, 3, 3, 7]⟩ ++
    List.replicate 12 ⟨SectionKind.data, 16, [1]⟩, 0, 0, 16⟩

/-- A file with one text section whose data buffer holds exactly 2^32
bytes. -/
def fHuge : DolFile :=
  ⟨[⟨SectionKind.text, 0, List.replicate (2 ^ 32) 0⟩], 0, 0, 0⟩

/-- A file with a 2^32-byte text section followed by a one-byte text
section. -/
def fHuge2 : DolFile :=
  ⟨[⟨SectionKind.text, 0, List.replicate (2 ^ 32) 0⟩, ⟨SectionKind.text, 0, [7]⟩],
    0, 0, 0⟩

/-- A 230-byte stream whose header declares one text slot at offset 228
with length 4, while only 2 bytes exist past the header region. -/
def shortSrc : List Nat :=
  [0, 0, 0, 228] ++ List.replicate 68 0 ++ List.replicate 72 0 ++
    [0, 0, 0, 4] ++ List.replicate 68 0 ++ List.replicate 12 0 ++ [9, 9]

/-! ## Basic facts about the word codec -/

theorem u32_lt (v : Nat) : u32 v < 2 ^ 32 :=
  Nat.mod_lt _ (by norm_num)

theorem u32_eq_of_lt {v : Nat} (h : v < 2 ^ 32) : u32 v = v :=
  Nat.mod_eq_of_lt h

theorem u32be_length (v : Nat) : (u32be v).length = 4 := rfl

theorem flatten_u32be_length (vs : List Nat) :
    ((vs.map u32be).flatten).length = 4 * vs.length := by
  induction vs with
  | nil => rfl
  | cons v vs ih =>
    simp only [List.map_cons, List.flatten_cons, List.length_append, ih,
      u32be_length, List.length_cons]
    omega

theorem readU32_u32be (v : Nat) (rest : List Nat) :
    readU32 (u32be v ++ rest) 0 = .ok (u32 v) := by
  simp only [readU32, u32be, List.cons_append, List.nil_append, List.drop_zero, u32]
  congr 1
  omega

theorem drop_append_shift (pre rest : List α) (p : Nat) :
    (pre ++ rest).drop (pre.length + p) = rest.drop p := by
  rw [← List.drop_drop, List.drop_left]

theorem readU32_shift (pre rest : List Nat) (p : Nat) :
    readU32 (pre ++ rest) (pre.length + p) = readU32 rest p := by
  unfold readU32
  rw [drop_append_shift]

theorem parseU32s_shift (n : Nat) (pre rest : List Nat) (p : Nat) :
    parseU32s (pre ++ rest) (pre.length + p) n = parseU32s rest p n := by
  induction n generalizing p with
  | zero => rfl
  | succ n ih =>
    simp only [parseU32s, readU32_shift,
      show pre.length + p + 4 = pre.length + (p + 4) from by omega, ih]

theorem parseU32s_encode (vs rest : List Nat) :
    parseU32s ((vs.map u32be).flatten ++ rest) 0 vs.length = .ok (vs.map u32) := by
  induction vs generalizing rest with
  | nil => rfl
  | cons v vs ih =>
    simp only [List.map_cons, List.flatten_cons, List.length_cons, List.append_assoc]
    have hshift : parseU32s (u32be v ++ ((vs.map u32be).flatten ++ rest)) (0 + 4) vs.length =
        parseU32s ((vs.map u32be).flatten ++ rest) 0 vs.length := by
      have h4 : (0 + 4 : Nat) = (u32be v).length + 0 := by simp [u32be_length]
      rw [h4, parseU32s_shift]
    simp only [parseU32s, readU32_u32be, hshift, ih, Except.bind, Bind.bind,
      Pure.pure, Except.pure]

theorem parseU32s_encode' (vs rest : List Nat) (n : Nat) (hn : vs.length = n) :
    parseU32s ((vs.map u32be).flatten ++ rest) 0 n = .ok (vs.map u32) := by
  rw [← hn]
  exact parseU32s_encode vs rest

/-! ## The header round trip -/

theorem parse_decomposed (offs addrs lens : List Nat) (bs bl ep : Nat)
    (tail : List Nat) (h1 : offs.length = 18) (h2 : addrs.length = 18)
    (h3 : lens.length = 18) :
    DolHeader.parse ((offs.map u32be).flatten ++ ((addrs.map u32be).flatten ++
      ((lens.map u32be).flatten ++ (u32be bs ++ (u32be bl ++ (u32be ep ++ tail)))))) =
      .ok ⟨offs.map u32, addrs.map u32, lens.map u32, u32 bs, u32 bl, u32 ep⟩ := by
  have hA : ((offs.map u32be).flatten).length = 72 := by rw [flatten_u32be_length, h1]
  have hB : ((addrs.map u32be).flatten).length = 72 := by rw [flatten_u32be_length, h2]
  have hC : ((lens.map u32be).flatten).length = 72 := by rw [flatten_u32be_length, h3]
  have e1 : parseU32s ((offs.map u32be).flatten ++ ((addrs.map u32be).flatten ++
      ((lens.map u32be).flatten ++ (u32be bs ++ (u32be bl ++ (u32be ep ++ tail)))))) 0 18 =
      .ok (offs.map u32) := parseU32s_encode' offs _ 18 h1
  have e2 : parseU32s ((offs.map u32be).flatten ++ ((addrs.map u32be).flatten ++
      ((lens.map u32be).flatten ++ (u32be bs ++ (u32be bl ++ (u32be ep ++ tail)))))) 72 18 =
      .ok (addrs.map u32) := by
    rw [show (72 : Nat) = ((offs.map u32be).flatten).length + 0 from by rw [hA]]
    rw [parseU32s_shift]
    exact parseU32s_encode' addrs _ 18 h2
  have e3 : parseU32s ((offs.map u32be).flatten ++ ((addrs.map u32be).flatten ++
      ((lens.map u32be).flatten ++ (u32be bs ++ (u32be bl ++ (u32be ep ++ tail)))))) 144 18 =
      .ok (lens.map u32) := by
    rw [show (144 : Nat) = ((offs.map u32be).flatten).length + 72 from by rw [hA]]
    rw [parseU32s_shift]
    rw [show (72 : Nat) = ((addrs.map u32be).flatten).length + 0 from by rw [hB]]
    rw [parseU32s_shift]
    exact parseU32s_encode' lens _ 18 h3
  have e4 : readU32 ((offs.map u32be).flatten ++ ((addrs.map u32be).flatten ++
      ((lens.map u32be).flatten ++ (u32be bs ++ (u32be bl ++ (u32be ep ++ tail)))))) 216 =
      .ok (u32 bs) := by
    rw [show (216 : Nat) = ((offs.map u32be).flatten).length + 144 from by rw [hA]]
    rw [readU32_shift]
    rw [show (144 : Nat) = ((addrs.map u32be).flatten).length + 72 from by rw [hB]]
    rw [readU32_shift]
    rw [show (72 : Nat) = ((lens.map u32be).flatten).length + 0 from by rw [hC]]
    rw [readU32_shift]
    exact readU32_u32be bs _
  have e5 : readU32 ((offs.map u32be).flatten ++ ((addrs.map u32be).flatten ++
      ((lens.map u32be).flatten ++ (u32be bs ++ (u32be bl ++ (u32be ep ++ tail)))))) 220 =
      .ok (u32 bl) := by
    rw [show (220 : Nat) = ((offs.map u32be).flatten).length + 148 from by rw [hA]]
    rw [readU32_shift]
    rw [show (148 : Nat) = ((addrs.map u32be).flatten).length + 76 from by rw [hB]]
    rw [readU32_shift]
    rw [show (76 : Nat) = ((lens.map u32be).flatten).length + 4 from by rw [hC]]
    rw [readU32_shift]
    rw [show (4 : Nat) = (u32be bs).length + 0 from by rw [u32be_length]]
    rw [readU32_shift]
    exact readU32_u32be bl _
  have e6 : readU32 ((offs.map u32be).flatten ++ ((addrs.map u32be).flatten ++
      ((lens.map u32be).flatten ++ (u32be bs ++ (u32be bl ++ (u32be ep ++ tail)))))) 224 =
      .ok (u32 ep) := by
    rw [show (224 : Nat) = ((offs.map u32be).flatten).length + 152 from by rw [hA]]
    rw [readU32_shift]
    rw [show (152 : Nat) = ((addrs.map u32be).flatten).length + 80 from by rw [hB]]
    rw [readU32_shift]
    rw [show (80 : Nat) = ((lens.map u32be).flatten).length + 8 from by rw [hC]]
    rw [readU32_shift]
    rw [show (8 : Nat) = (u32be bs).length + 4 from by rw [u32be_length]]
    rw [readU32_shift]
    rw [show (4 : Nat) = (u32be bl).length + 0 from by rw [u32be_length]]
    rw [readU32_shift]
    exact readU32_u32be ep _
  simp only [DolHeader.parse, e1, e2, e3, e4, e5, e6, Except.bind, Bind.bind,
    Pure.pure, Except.pure]

theorem DolHeader.parse_write (h : DolHeader) (rest : List Nat)
    (h1 : h.section_offsets.length = 18) (h2 : h.section_addresses.length = 18)
    (h3 : h.section_lengths.length = 18) :
    DolHeader.parse (h.write ++ rest) =
      .ok ⟨h.section_offsets.map u32, h.section_addresses.map u32,
        h.section_lengths.map u32, u32 h.bss_start, u32 h.bss_length,
        u32 h.entry_point⟩ := by
  have hS : h.write ++ rest = (h.section_offsets.map u32be).flatten ++
      ((h.section_addresses.map u32be).flatten ++
        ((h.section_lengths.map u32be).flatten ++ (u32be h.bss_start ++
          (u32be h.bss_length ++ (u32be h.entry_point ++ (List.replicate 28 0 ++ rest)))))) := by
    simp [DolHeader.write, List.append_assoc]
  rw [hS]
  exact parse_decomposed _ _ _ _ _ _ _ h1 h2 h3

/-! ## Sums and concatenations of section data -/

theorem sumLens_nil : sumLens [] = 0 := rfl

theorem sumLens_cons (s : Section) (rest : List Section) :
    sumLens (s :: rest) = s.data.length + sumLens rest := by
  simp [sumLens]

theorem sumLens_append (a b : List Section) :
    sumLens (a ++ b) = sumLens a + sumLens b := by
  simp [sumLens]

theorem concatData_nil : concatData [] = [] := rfl

theorem concatData_cons (s : Section) (rest : List Section) :
    concatData (s :: rest) = s.data ++ concatData rest := by
  simp [concatData]

theorem concatData_append (a b : List Section) :
    concatData (a ++ b) = concatData a ++ concatData b := by
  simp [concatData]

theorem concatData_length (secs : List Section) :
    (concatData secs).length = sumLens secs := by
  induction secs with
  | nil => rfl
  | cons s rest ih => simp [concatData_cons, ih, sumLens_cons]

/-! ## The layout loop -/

theorem layout_snd (secs : List Section) (cur : Nat) :
    ((layoutKind secs cur).1).map Prod.snd = secs := by
  induction secs generalizing cur with
  | nil => rfl
  | cons s rest ih => simp [layoutKind, ih]

theorem offsetsFrom_length (base : Nat) (secs : List Section) :
    (offsetsFrom base secs).length = secs.length := by
  induction secs generalizing base with
  | nil => rfl
  | cons s rest ih => simp [offsetsFrom, ih]

theorem offsetsFrom_append (base : Nat) (a b : List Section) :
    offsetsFrom base (a ++ b) =
      offsetsFrom base a ++ offsetsFrom (base + sumLens a) b := by
  induction a generalizing base with
  | nil => simp [offsetsFrom, sumLens_nil]
  | cons s rest ih =>
    rw [List.cons_append, offsetsFrom, offsetsFrom, ih, sumLens_cons, ← Nat.add_assoc,
      List.cons_append]

theorem offsetsFrom_getD (secs : List Section) (base i : Nat) (h : i < secs.length) :
    (offsetsFrom base secs).getD i 0 = base + sumLens (secs.take i) := by
  induction secs generalizing base i with
  | nil => simp at h
  | cons s rest ih =>
    cases i with
    | zero => simp [offsetsFrom, sumLens_nil]
    | succ i =>
      have hi : i < rest.length := by simpa using h
      simp only [offsetsFrom, List.getD_cons_succ, ih (base + s.data.length) i hi,
        List.take_succ_cons, sumLens_cons]
      omega

theorem offsetsFrom_mem_le (secs : List Section) (base : Nat) :
    ∀ x ∈ offsetsFrom base secs, x ≤ base + sumLens secs := by
  induction secs generalizing base with
  | nil => simp [offsetsFrom]
  | cons s rest ih =>
    intro x hx
    simp only [offsetsFrom, List.mem_cons] at hx
    rcases hx with rfl | hx
    · omega
    · have := ih (base + s.data.length) x hx
      rw [sumLens_cons]
      omega

theorem layout_exact (secs : List Section) (cur : Nat)
    (h : cur + sumLens secs < 2 ^ 32) :
    layoutKind secs cur = ((offsetsFrom cur secs).zip secs, cur + sumLens secs) := by
  induction secs generalizing cur with
  | nil => simp [layoutKind, offsetsFrom, sumLens_nil]
  | cons s rest ih =>
    have hsl := sumLens_cons s rest
    have hnext : u32 (cur + u32 s.data.length) = cur + s.data.length := by
      rw [u32_eq_of_lt (show s.data.length < 2 ^ 32 by omega)]
      exact u32_eq_of_lt (by omega)
    rw [layoutKind, hnext, ih (cur + s.data.length) (by omega), offsetsFrom,
      List.zip_cons_cons, sumLens_cons, ← Nat.add_assoc]

/-! ## The streaming loop -/

theorem padCount_self (x : Nat) : padCount x x = 0 := by
  simp [padCount]

theorem streamSections_contiguous (secs : List Section) (pre : List Nat) :
    streamSections ((offsetsFrom pre.length secs).zip secs) pre =
      pre ++ concatData secs := by
  induction secs generalizing pre with
  | nil => simp [offsetsFrom, streamSections, concatData_nil]
  | cons s rest ih =>
    rw [offsetsFrom, List.zip_cons_cons, streamSections, padCount_self,
      List.replicate_zero, List.append_nil]
    have hlen : pre.length + s.data.length = (pre ++ s.data).length := by simp
    rw [hlen, ih (pre ++ s.data), concatData_cons, List.append_assoc]

/-! ## The section loader -/

theorem zip3_append {α β γ : Type} (as : List α) (bs : List β) (cs : List γ)
    (as' : List α) (bs' : List β) (cs' : List γ)
    (hab : as.length = bs.length) (hac : as.length = cs.length) :
    zip3 (as ++ as') (bs ++ bs') (cs ++ cs') = zip3 as bs cs ++ zip3 as' bs' cs' := by
  induction as generalizing bs cs with
  | nil =>
    cases bs with
    | nil =>
      cases cs with
      | nil => rfl
      | cons c cs => simp at hac
    | cons b bs => simp at hab
  | cons a as ih =>
    cases bs with
    | nil => simp at hab
    | cons b bs =>
      cases cs with
      | nil => simp at hac
      | cons c cs =>
        simp only [List.cons_append, zip3, List.cons.injEq, true_and]
        exact ih bs cs (by simpa using hab) (by simpa using hac)

theorem load_append (src : List Nat) (o a l o' a' l' : List Nat) (k : SectionKind)
    (h1 : o.length = a.length) (h2 : o.length = l.length) :
    load_sections src (o ++ o') (a ++ a') (l ++ l') k =
      load_sections src o a l k ++ load_sections src o' a' l' k := by
  unfold load_sections
  rw [zip3_append o a l o' a' l' h1 h2, List.filter_append, List.map_append]

theorem load_replicate_zero (src : List Nat) (o a : List Nat) (n : Nat)
    (k : SectionKind) :
    load_sections src o a (List.replicate n 0) k = [] := by
  induction n generalizing o a with
  | zero => cases o <;> cases a <;> rfl
  | succ n ih =>
    cases o with
    | nil => rfl
    | cons x xs =>
      cases a with
      | nil => rfl
      | cons y ys =>
        simp only [List.replicate_succ, load_sections, zip3]
        rw [List.filter_cons_of_neg (by simp)]
        simpa [load_sections] using ih xs ys

theorem load_recover (secs : List Section) (pre suf : List Nat) (k : SectionKind)
    (hk : ∀ s ∈ secs, s.kind = k) (hnz : ∀ s ∈ secs, 0 < s.data.length) :
    load_sections (pre ++ (concatData secs ++ suf)) (offsetsFrom pre.length secs)
      (secs.map Section.address) (secs.map fun s => s.data.length) k = secs := by
  induction secs generalizing pre with
  | nil => rfl
  | cons s rest ih =>
    rw [offsetsFrom, List.map_cons, List.map_cons]
    simp only [load_sections, zip3]
    rw [List.filter_cons_of_pos
      (by simpa using hnz s (List.mem_cons_self s rest)), List.map_cons]
    have hsrc : pre ++ (concatData (s :: rest) ++ suf) =
        pre ++ (s.data ++ (concatData rest ++ suf)) := by
      rw [concatData_cons, List.append_assoc]
    have hhead : readBytes (pre ++ (concatData (s :: rest) ++ suf)) pre.length
        s.data.length = s.data := by
      rw [hsrc]
      unfold readBytes
      rw [List.drop_left, List.take_left]
    have hkind : s.kind = k := hk s (List.mem_cons_self s rest)
    have htail : ((zip3 (offsetsFrom (pre.length + s.data.length) rest)
          (rest.map Section.address) (rest.map fun s => s.data.length)).filter
            fun t => 0 < t.2.2).map
          (fun t => (⟨k, t.2.1, readBytes (pre ++ (concatData (s :: rest) ++ suf))
            t.1 t.2.2⟩ : Section)) = rest := by
      have hlen : pre.length + s.data.length = (pre ++ s.data).length := by simp
      have hsrc2 : pre ++ (concatData (s :: rest) ++ suf) =
          (pre ++ s.data) ++ (concatData rest ++ suf) := by
        rw [hsrc, List.append_assoc]
      rw [hlen, hsrc2]
      simpa [load_sections] using ih (pre ++ s.data)
        (fun x hx => hk x (List.mem_cons_of_mem s hx))
        (fun x hx => hnz x (List.mem_cons_of_mem s hx))
    rw [htail, hhead]
    congr 1
    rw [← hkind]

/-! ## Partitioning sections by kind -/

theorem mem_textSections_kind (f : DolFile) (s : Section)
    (hs : s ∈ textSections f) : s.kind = SectionKind.text := by
  have := (List.mem_filter.mp hs).2
  simpa using this

theorem mem_dataSections_kind (f : DolFile) (s : Section)
    (hs : s ∈ dataSections f) : s.kind = SectionKind.data := by
  have := (List.mem_filter.mp hs).2
  simpa using this

theorem textSections_sublist (f : DolFile) :
    List.Sublist (textSections f) f.sections :=
  List.filter_sublist f.sections

theorem dataSections_sublist (f : DolFile) :
    List.Sublist (dataSections f) f.sections :=
  List.filter_sublist f.sections

theorem partition_perm (f : DolFile) :
    List.Perm (textSections f ++ dataSections f) f.sections := by
  have hcongr : f.sections.filter (fun s => !(s.kind == SectionKind.text)) =
      dataSections f := by
    unfold dataSections
    apply List.filter_congr
    intro s _
    cases h : s.kind <;> simp [h]
  have := List.filter_append_perm (fun s => s.kind == SectionKind.text) f.sections
  rw [hcongr] at this
  exact this

theorem sumLens_perm {a b : List Section} (h : List.Perm a b) :
    sumLens a = sumLens b := by
  unfold sumLens
  exact (h.map _).sum_eq

theorem sum_partition (f : DolFile) :
    sumLens (textSections f) + sumLens (dataSections f) = sumLens f.sections := by
  rw [← sumLens_append]
  exact sumLens_perm (partition_perm f)

theorem mem_sumLens_le (secs : List Section) (s : Section) (hs : s ∈ secs) :
    s.data.length ≤ sumLens secs := by
  induction secs with
  | nil => simp at hs
  | cons x xs ih =>
    rcases List.mem_cons.mp hs with rfl | hs
    · rw [sumLens_cons]; omega
    · have := ih hs
      rw [sumLens_cons]; omega

/-! ## Shape of the computed header -/

theorem slotFill_length (vals : List Nat) (cap : Nat) (h : vals.length ≤ cap) :
    (slotFill vals cap).length = cap := by
  simp only [slotFill, List.length_append, List.length_replicate]
  omega

theorem layout_queue_length (secs : List Section) (cur : Nat) :
    ((layoutKind secs cur).1).length = secs.length := by
  have := congrArg List.length (layout_snd secs cur)
  simpa using this

theorem map_u32_of_lt (l : List Nat) (h : ∀ x ∈ l, x < 2 ^ 32) :
    l.map u32 = l := by
  induction l with
  | nil => rfl
  | cons x xs ih =>
    rw [List.map_cons, u32_eq_of_lt (h x (List.mem_cons_self x xs)),
      ih fun y hy => h y (List.mem_cons_of_mem x hy)]

theorem computeHeader_exact (f : DolFile)
    (hsz : 256 + sumLens f.sections < 2 ^ 32) :
    computeHeader f =
      ⟨slotFill (offsetsFrom 256 (textSections f)) 7 ++
          slotFill (offsetsFrom (256 + sumLens (textSections f)) (dataSections f)) 11,
        slotFill ((textSections f).map Section.address) 7 ++
          slotFill ((dataSections f).map Section.address) 11,
        slotFill ((textSections f).map fun s => s.data.length) 7 ++
          slotFill ((dataSections f).map fun s => s.data.length) 11,
        f.bss_start, f.bss_length, f.entry_point⟩ := by
  have hTD := sum_partition f
  have hT : 256 + sumLens (textSections f) ≤ 256 + sumLens f.sections := by omega
  unfold computeHeader
  rw [layout_exact (textSections f) 256 (by omega)]
  rw [layout_exact (dataSections f) (256 + sumLens (textSections f)) (by omega)]
  simp only
  rw [List.map_fst_zip _ _ (by rw [offsetsFrom_length]),
    List.map_fst_zip _ _ (by rw [offsetsFrom_length])]
  have hlens : ((textSections f).map fun s => u32 s.data.length) =
      (textSections f).map fun s => s.data.length := by
    apply List.map_congr_left
    intro s hs
    exact u32_eq_of_lt (by
      have h1 := mem_sumLens_le _ s hs
      have h2 := (textSections_sublist f).length_le
      have h3 : sumLens (textSections f) ≤ sumLens f.sections := by omega
      omega)
  have hlens' : ((dataSections f).map fun s => u32 s.data.length) =
      (dataSections f).map fun s => s.data.length := by
    apply List.map_congr_left
    intro s hs
    exact u32_eq_of_lt (by
      have h1 := mem_sumLens_le _ s hs
      omega)
  rw [hlens, hlens']

theorem writeOrder_eq (f : DolFile) :
    writeOrder f = textSections f ++ dataSections f := by
  unfold writeOrder writeQueue
  rw [List.map_append, layout_snd, layout_snd]

theorem writeQueue_exact (f : DolFile) (hsz : 256 + sumLens f.sections < 2 ^ 32) :
    writeQueue f = (offsetsFrom 256 (textSections f ++ dataSections f)).zip
      (textSections f ++ dataSections f) := by
  have hTD := sum_partition f
  have h1 := layout_exact (textSections f) 256 (by omega)
  have h2 := layout_exact (dataSections f) (256 + sumLens (textSections f)) (by omega)
  unfold writeQueue
  rw [h1, h2, offsetsFrom_append, List.zip_append (by rw [offsetsFrom_length])]

theorem DolHeader.write_length (h : DolHeader) (h1 : h.section_offsets.length = 18)
    (h2 : h.section_addresses.length = 18) (h3 : h.section_lengths.length = 18) :
    h.write.length = 256 := by
  unfold DolHeader.write
  rw [List.length_append, List.length_append, List.length_append, List.length_append,
    List.length_append, List.length_append, flatten_u32be_length, flatten_u32be_length,
    flatten_u32be_length, h1, h2, h3, u32be_length, u32be_length, u32be_length,
    List.length_replicate]

theorem computeHeader_offsets_length (f : DolFile)
    (htc : (textSections f).length ≤ 7) (hdc : (dataSections f).length ≤ 11) :
    (computeHeader f).section_offsets.length = 18 := by
  simp only [computeHeader]
  rw [List.length_append,
    slotFill_length _ _ (by rw [List.length_map, layout_queue_length]; exact htc),
    slotFill_length _ _ (by rw [List.length_map, layout_queue_length]; exact hdc)]

theorem computeHeader_addresses_length (f : DolFile)
    (htc : (textSections f).length ≤ 7) (hdc : (dataSections f).length ≤ 11) :
    (computeHeader f).section_addresses.length = 18 := by
  simp only [computeHeader]
  rw [List.length_append,
    slotFill_length _ _ (by rw [List.length_map]; exact htc),
    slotFill_length _ _ (by rw [List.length_map]; exact hdc)]

theorem computeHeader_lengths_length (f : DolFile)
    (htc : (textSections f).length ≤ 7) (hdc : (dataSections f).length ≤ 11) :
    (computeHeader f).section_lengths.length = 18 := by
  simp only [computeHeader]
  rw [List.length_append,
    slotFill_length _ _ (by rw [List.length_map]; exact htc),
    slotFill_length _ _ (by rw [List.length_map]; exact hdc)]

theorem write_ok (f : DolFile)
    (htc : (textSections f).length ≤ 7) (hdc : (dataSections f).length ≤ 11)
    (hsz : 256 + sumLens f.sections < 2 ^ 32) :
    DolFile.write f = ((computeHeader f).write ++
      concatData (textSections f ++ dataSections f), .ok ()) := by
  have hlen : ((computeHeader f).write).length = 256 :=
    DolHeader.write_length _ (computeHeader_offsets_length f htc hdc)
      (computeHeader_addresses_length f htc hdc)
      (computeHeader_lengths_length f htc hdc)
  unfold DolFile.write
  rw [if_neg (by omega), if_neg (by omega)]
  rw [writeQueue_exact f hsz, show (256 : Nat) = ((computeHeader f).write).length
    from hlen.symm, streamSections_contiguous]

theorem slotFill_mem (vals : List Nat) (cap x : Nat) (hx : x ∈ slotFill vals cap) :
    x ∈ vals ∨ x = 0 := by
  unfold slotFill at hx
  rcases List.mem_append.mp hx with h | h
  · exact Or.inl h
  · exact Or.inr (List.eq_of_mem_replicate h)

theorem parse_write_roundtrip (f : DolFile)
    (htc : (textSections f).length ≤ 7) (hdc : (dataSections f).length ≤ 11)
    (hnz : ∀ s ∈ f.sections, 0 < s.data.length)
    (haddr : ∀ s ∈ f.sections, s.address < 2 ^ 32)
    (hbs : f.bss_start < 2 ^ 32) (hbl : f.bss_length < 2 ^ 32)
    (hep : f.entry_point < 2 ^ 32)
    (hsz : 256 + sumLens f.sections < 2 ^ 32) :
    DolFile.parse ((DolFile.write f).1) =
      .ok ⟨textSections f ++ dataSections f, f.bss_start, f.bss_length,
        f.entry_point⟩ := by
  have hTD := sum_partition f
  have ce := computeHeader_exact f hsz
  have hlen : ((computeHeader f).write).length = 256 :=
    DolHeader.write_length _ (computeHeader_offsets_length f htc hdc)
      (computeHeader_addresses_length f htc hdc)
      (computeHeader_lengths_length f htc hdc)
  have hTlen : (offsetsFrom 256 (textSections f)).length = (textSections f).length :=
    offsetsFrom_length _ _
  have hDlen : (offsetsFrom (256 + sumLens (textSections f)) (dataSections f)).length =
      (dataSections f).length := offsetsFrom_length _ _
  -- every entry of the computed header is an exact u32 value
  have hoffs : ((computeHeader f).section_offsets).map u32 =
      (computeHeader f).section_offsets := by
    apply map_u32_of_lt
    intro x hx
    rw [ce] at hx
    rcases List.mem_append.mp hx with h | h
    · rcases slotFill_mem _ _ _ h with h | rfl
      · have := offsetsFrom_mem_le _ _ _ h
        omega
      · omega
    · rcases slotFill_mem _ _ _ h with h | rfl
      · have := offsetsFrom_mem_le _ _ _ h
        omega
      · omega
  have haddrs : ((computeHeader f).section_addresses).map u32 =
      (computeHeader f).section_addresses := by
    apply map_u32_of_lt
    intro x hx
    rw [ce] at hx
    rcases List.mem_append.mp hx with h | h
    · rcases slotFill_mem _ _ _ h with h | rfl
      · obtain ⟨s, hs, rfl⟩ := List.mem_map.mp h
        exact haddr s ((textSections_sublist f).mem hs)
      · omega
    · rcases slotFill_mem _ _ _ h with h | rfl
      · obtain ⟨s, hs, rfl⟩ := List.mem_map.mp h
        exact haddr s ((dataSections_sublist f).mem hs)
      · omega
  have hlens : ((computeHeader f).section_lengths).map u32 =
      (computeHeader f).section_lengths := by
    apply map_u32_of_lt
    intro x hx
    rw [ce] at hx
    rcases List.mem_append.mp hx with h | h
    · rcases slotFill_mem _ _ _ h with h | rfl
      · obtain ⟨s, hs, rfl⟩ := List.mem_map.mp h
        have h1 := mem_sumLens_le _ s ((textSections_sublist f).mem hs)
        omega
      · omega
    · rcases slotFill_mem _ _ _ h with h | rfl
      · obtain ⟨s, hs, rfl⟩ := List.mem_map.mp h
        have h1 := mem_sumLens_le _ s ((dataSections_sublist f).mem hs)
        omega
      · omega
  have hchb : (computeHeader f).bss_start = f.bss_start := by rw [ce]
  have hchl : (computeHeader f).bss_length = f.bss_length := by rw [ce]
  have hche : (computeHeader f).entry_point = f.entry_point := by rw [ce]
  have hparse : DolHeader.parse ((computeHeader f).write ++
      concatData (textSections f ++ dataSections f)) = .ok (computeHeader f) := by
    rw [DolHeader.parse_write _ _ (computeHeader_offsets_length f htc hdc)
      (computeHeader_addresses_length f htc hdc)
      (computeHeader_lengths_length f htc hdc)]
    rw [hoffs, haddrs, hlens]
    rw [show u32 (computeHeader f).bss_start = (computeHeader f).bss_start from by
      rw [hchb]; exact u32_eq_of_lt hbs]
    rw [show u32 (computeHeader f).bss_length = (computeHeader f).bss_length from by
      rw [hchl]; exact u32_eq_of_lt hbl]
    rw [show u32 (computeHeader f).entry_point = (computeHeader f).entry_point from by
      rw [hche]; exact u32_eq_of_lt hep]
  -- the two loader calls recover the text and data sections
  have hslotT : ((computeHeader f).section_offsets).take 7 =
      slotFill (offsetsFrom 256 (textSections f)) 7 := by
    rw [ce]
    exact List.take_left' (slotFill_length _ _ (by omega))
  have hslotD : (((computeHeader f).section_offsets).drop 7).take 11 =
      slotFill (offsetsFrom (256 + sumLens (textSections f)) (dataSections f)) 11 := by
    rw [ce, List.drop_left' (slotFill_length _ _ (by omega))]
    exact List.take_of_length_le (le_of_eq (slotFill_length _ _ (by omega)))
  have haddrT : ((computeHeader f).section_addresses).take 7 =
      slotFill ((textSections f).map Section.address) 7 := by
    rw [ce]
    exact List.take_left' (slotFill_length _ _ (by rw [List.length_map]; omega))
  have haddrD : (((computeHeader f).section_addresses).drop 7).take 11 =
      slotFill ((dataSections f).map Section.address) 11 := by
    rw [ce, List.drop_left' (slotFill_length _ _ (by rw [List.length_map]; omega))]
    exact List.take_of_length_le
      (le_of_eq (slotFill_length _ _ (by rw [List.length_map]; omega)))
  have hlenT : ((computeHeader f).section_lengths).take 7 =
      slotFill ((textSections f).map fun s => s.data.length) 7 := by
    rw [ce]
    exact List.take_left' (slotFill_length _ _ (by rw [List.length_map]; omega))
  have hlenD : (((computeHeader f).section_lengths).drop 7).take 11 =
      slotFill ((dataSections f).map fun s => s.data.length) 11 := by
    rw [ce, List.drop_left' (slotFill_length _ _ (by rw [List.length_map]; omega))]
    exact List.take_of_length_le
      (le_of_eq (slotFill_length _ _ (by rw [List.length_map]; omega)))
  have hloadT : load_sections ((computeHeader f).write ++
        concatData (textSections f ++ dataSections f))
        (slotFill (offsetsFrom 256 (textSections f)) 7)
        (slotFill ((textSections f).map Section.address) 7)
        (slotFill ((textSections f).map fun s => s.data.length) 7)
        SectionKind.text = textSections f := by
    unfold slotFill
    rw [List.length_map, List.length_map, hTlen]
    rw [load_append _ _ _ _ _ _ _ _ (by rw [hTlen, List.length_map])
      (by rw [hTlen, List.length_map])]
    rw [load_replicate_zero, List.append_nil]
    rw [concatData_append, ← List.append_assoc]
    rw [show (256 : Nat) = ((computeHeader f).write).length from hlen.symm]
    rw [List.append_assoc]
    exact load_recover (textSections f) _ (concatData (dataSections f)) SectionKind.text
      (mem_textSections_kind f)
      (fun s hs => hnz s ((textSections_sublist f).mem hs))
  have hloadD : load_sections ((computeHeader f).write ++
        concatData (textSections f ++ dataSections f))
        (slotFill (offsetsFrom (256 + sumLens (textSections f)) (dataSections f)) 11)
        (slotFill ((dataSections f).map Section.address) 11)
        (slotFill ((dataSections f).map fun s => s.data.length) 11)
        SectionKind.data = dataSections f := by
    unfold slotFill
    rw [List.length_map, List.length_map, hDlen]
    rw [load_append _ _ _ _ _ _ _ _ (by rw [hDlen, List.length_map])
      (by rw [hDlen, List.length_map])]
    rw [load_replicate_zero, List.append_nil]
    have hpre : (256 : Nat) + sumLens (textSections f) =
        ((computeHeader f).write ++ concatData (textSections f)).length := by
      rw [List.length_append, hlen, concatData_length]
    rw [hpre]
    rw [concatData_append, ← List.append_assoc]
    have hsuf : (computeHeader f).write ++ concatData (textSections f) ++
        concatData (dataSections f) = ((computeHeader f).write ++
          concatData (textSections f)) ++ (concatData (dataSections f) ++ []) := by
      rw [List.append_nil]
    rw [hsuf]
    exact load_recover (dataSections f) _ [] SectionKind.data
      (mem_dataSections_kind f)
      (fun s hs => hnz s ((dataSections_sublist f).mem hs))
  rw [write_ok f htc hdc hsz]
  simp only [DolFile.parse, hparse, Except.bind, Bind.bind, Pure.pure, Except.pure]
  rw [hslotT, haddrT, hlenT, hslotD, haddrD, hlenD, hloadT, hloadD, hchb, hchl, hche]

theorem write_ok_result (f : DolFile) (htc : (textSections f).length ≤ 7)
    (hdc : (dataSections f).length ≤ 11) : (DolFile.write f).2 = .ok () := by
  unfold DolFile.write
  rw [if_neg (by omega), if_neg (by omega)]

theorem getD_map {α β : Type} (f : α → β) (l : List α) (i : Nat) (d : α) :
    (l.map f).getD i (f d) = f (l.getD i d) := by
  induction l generalizing i with
  | nil => rfl
  | cons x xs ih => cases i <;> simp [ih]

theorem replicate_zero_getD (n i : Nat) :
    (List.replicate n (0 : Nat)).getD i 0 = 0 := by
  rw [List.getD_eq_getElem?_getD, List.getElem?_replicate]
  split <;> rfl

theorem u32be_getD (v j : Nat) (h : j < 4) :
    (u32be v).getD j 0 = v / 2 ^ (8 * (3 - j)) % 256 := by
  interval_cases j <;> simp [u32be]

theorem flatten_u32be_getD (vs : List Nat) (i : Nat) :
    ((vs.map u32be).flatten).getD i 0 =
      if i < 4 * vs.length then vs.getD (i / 4) 0 / 2 ^ (8 * (3 - i % 4)) % 256
      else 0 := by
  induction vs generalizing i with
  | nil => simp
  | cons v vs ih =>
    rw [List.map_cons, List.flatten_cons]
    by_cases h4 : i < 4
    · rw [List.getD_append _ _ _ _ (by rw [u32be_length]; omega)]
      rw [if_pos (by simp only [List.length_cons]; omega)]
      have hdiv : i / 4 = 0 := by omega
      have hmod : i % 4 = i := by omega
      rw [hdiv, hmod, List.getD_cons_zero]
      exact u32be_getD v i h4
    · rw [List.getD_append_right _ _ _ _ (by rw [u32be_length]; omega), u32be_length]
      rw [ih (i - 4)]
      by_cases h : i < 4 * (v :: vs).length
      · rw [if_pos (by simp only [List.length_cons] at h; omega), if_pos h]
        have hdiv : i / 4 = (i - 4) / 4 + 1 := by omega
        have hmod : (i - 4) % 4 = i % 4 := by omega
        rw [hdiv, hmod, List.getD_cons_succ]
      · rw [if_neg (by simp only [List.length_cons] at h; omega), if_neg h]

theorem slotFill_getD_lt (vals : List Nat) (cap i : Nat) (h : i < vals.length) :
    (slotFill vals cap).getD i 0 = vals.getD i 0 :=
  List.getD_append _ _ _ _ h

theorem slotFill_getD_ge (vals : List Nat) (cap i : Nat) (h : vals.length ≤ i) :
    (slotFill vals cap).getD i 0 = 0 := by
  unfold slotFill
  rw [List.getD_append_right _ _ _ _ h]
  exact replicate_zero_getD _ _

theorem getD_map' {α β : Type} (f : α → β) (l : List α) (i : Nat) (d : α) (b : β)
    (hb : f d = b) : (l.map f).getD i b = f (l.getD i d) := by
  rw [← hb]
  exact getD_map f l i d

theorem zip3_filter_pos_length (lens : List Nat) :
    ∀ (offs addrs : List Nat), offs.length = lens.length →
      addrs.length = lens.length →
      ((zip3 offs addrs lens).filter fun t => 0 < t.2.2).length =
        (lens.filter fun l => 0 < l).length := by
  induction lens with
  | nil =>
    intro offs addrs h1 h2
    cases offs with
    | nil =>
      cases addrs with
      | nil => rfl
      | cons a as => simp at h2
    | cons o os => simp at h1
  | cons l ls ih =>
    intro offs addrs h1 h2
    cases offs with
    | nil => simp at h1
    | cons o os =>
      cases addrs with
      | nil => simp at h2
      | cons a as =>
        simp only [zip3]
        by_cases hl : 0 < l
        · rw [List.filter_cons_of_pos (by simpa using hl),
            List.filter_cons_of_pos (by simpa using hl)]
          simp only [List.length_cons]
          rw [ih os as (by simpa using h1) (by simpa using h2)]
        · rw [List.filter_cons_of_neg (by simpa using hl),
            List.filter_cons_of_neg (by simpa using hl)]
          exact ih os as (by simpa using h1) (by simpa using h2)

theorem load_set_zero (src : List Nat) (k : SectionKind) (x y : Nat) :
    ∀ (i : Nat) (offs addrs lens : List Nat), lens.getD i 0 = 0 →
      load_sections src (offs.set i x) (addrs.set i y) lens k =
        load_sections src offs addrs lens k := by
  intro i
  induction i with
  | zero =>
    intro offs addrs lens hz
    cases offs with
    | nil => rfl
    | cons o os =>
      cases addrs with
      | nil => rfl
      | cons a as =>
        cases lens with
        | nil => rfl
        | cons l ls =>
          have hl : l = 0 := by simpa using hz
          subst hl
          simp only [List.set_cons_zero, load_sections, zip3]
          rw [List.filter_cons_of_neg (by simp),
            List.filter_cons_of_neg (by simp)]
  | succ i ih =>
    intro offs addrs lens hz
    cases offs with
    | nil => rfl
    | cons o os =>
      cases addrs with
      | nil => rfl
      | cons a as =>
        cases lens with
        | nil => rfl
        | cons l ls =>
          have hz' : ls.getD i 0 = 0 := by simpa using hz
          simp only [List.set_cons_succ, load_sections, zip3]
          by_cases hl : 0 < l
          · rw [List.filter_cons_of_pos (by simpa using hl),
              List.filter_cons_of_pos (by simpa using hl)]
            simp only [List.map_cons]
            congr 1
            simpa [load_sections] using ih os as ls hz'
          · rw [List.filter_cons_of_neg (by simpa using hl),
              List.filter_cons_of_neg (by simpa using hl)]
            simpa [load_sections] using ih os as ls hz'

/-! ## When parsing succeeds -/

theorem readU32_ok_of (src : List Nat) (pos : Nat) (h : pos + 4 ≤ src.length) :
    ∃ v, readU32 src pos = .ok v := by
  have hd : 4 ≤ (src.drop pos).length := by rw [List.length_drop]; omega
  unfold readU32
  cases h0 : src.drop pos with
  | nil => rw [h0] at hd; simp at hd
  | cons b0 t0 =>
    cases h1 : t0 with
    | nil => rw [h0, h1] at hd; simp at hd
    | cons b1 t1 =>
      cases h2 : t1 with
      | nil => rw [h0, h1, h2] at hd; simp at hd
      | cons b2 t2 =>
        cases h3 : t2 with
        | nil => rw [h0, h1, h2, h3] at hd; simp at hd
        | cons b3 t3 => exact ⟨_, rfl⟩

theorem readU32_err_of (src : List Nat) (pos : Nat) (h : src.length < pos + 4) :
    readU32 src pos = .error .ioError := by
  have hd : (src.drop pos).length < 4 := by rw [List.length_drop]; omega
  unfold readU32
  cases h0 : src.drop pos with
  | nil => rfl
  | cons b0 t0 =>
    cases h1 : t0 with
    | nil => rfl
    | cons b1 t1 =>
      cases h2 : t1 with
      | nil => rfl
      | cons b2 t2 =>
        cases h3 : t2 with
        | nil => rfl
        | cons b3 t3 =>
          rw [h0, h1, h2, h3] at hd
          simp only [List.length_cons] at hd
          omega

theorem parseU32s_ok (src : List Nat) (pos n : Nat)
    (h : pos + 4 * n ≤ src.length) :
    ∃ vs, parseU32s src pos n = .ok vs ∧ vs.length = n := by
  induction n generalizing pos with
  | zero => exact ⟨[], rfl, rfl⟩
  | succ n ih =>
    obtain ⟨v, hv⟩ := readU32_ok_of src pos (by omega)
    obtain ⟨vs, hvs, hlen⟩ := ih (pos + 4) (by omega)
    refine ⟨v :: vs, ?_, by simp [hlen]⟩
    simp only [parseU32s, hv, hvs, Except.bind, Bind.bind, Pure.pure, Except.pure]

theorem parseU32s_succ (src : List Nat) (pos n : Nat) :
    parseU32s src pos (n + 1) =
      (readU32 src pos).bind fun v =>
        (parseU32s src (pos + 4) n).bind fun vs => pure (v :: vs) := rfl

theorem parseU32s_err (src : List Nat) (n : Nat) :
    ∀ pos, src.length < pos + 4 * (n + 1) →
      parseU32s src pos (n + 1) = .error .ioError := by
  induction n with
  | zero =>
    intro pos h
    have he := readU32_err_of src pos (by omega)
    rw [parseU32s_succ, he]
    rfl
  | succ n ih =>
    intro pos h
    by_cases hr : pos + 4 ≤ src.length
    · obtain ⟨v, hv⟩ := readU32_ok_of src pos hr
      have he := ih (pos + 4) (by omega)
      rw [parseU32s_succ, hv, he]
      rfl
    · have he := readU32_err_of src pos (by omega)
      rw [parseU32s_succ, he]
      rfl

theorem headerParse_ok_of (src : List Nat) (h : 228 ≤ src.length) :
    ∃ hd, DolHeader.parse src = .ok hd := by
  obtain ⟨o, ho, _⟩ := parseU32s_ok src 0 18 (by omega)
  obtain ⟨a, ha, _⟩ := parseU32s_ok src 72 18 (by omega)
  obtain ⟨l, hl, _⟩ := parseU32s_ok src 144 18 (by omega)
  obtain ⟨v1, h1⟩ := readU32_ok_of src 216 (by omega)
  obtain ⟨v2, h2⟩ := readU32_ok_of src 220 (by omega)
  obtain ⟨v3, h3⟩ := readU32_ok_of src 224 (by omega)
  refine ⟨⟨o, a, l, v1, v2, v3⟩, ?_⟩
  simp only [DolHeader.parse, ho, ha, hl, h1, h2, h3, Except.bind, Bind.bind,
    Pure.pure, Except.pure]

theorem headerParse_err_of (src : List Nat) (h : src.length < 228) :
    DolHeader.parse src = .error .ioError := by
  by_cases c1 : src.length < 72
  · have e1 : parseU32s src 0 18 = .error .ioError :=
      parseU32s_err src 17 0 (by omega)
    simp only [DolHeader.parse, e1, Except.bind, Bind.bind]
  · obtain ⟨o, ho, _⟩ := parseU32s_ok src 0 18 (by omega)
    by_cases c2 : src.length < 144
    · have e2 : parseU32s src 72 18 = .error .ioError :=
        parseU32s_err src 17 72 (by omega)
      simp only [DolHeader.parse, ho, e2, Except.bind, Bind.bind]
    · obtain ⟨a, ha, _⟩ := parseU32s_ok src 72 18 (by omega)
      by_cases c3 : src.length < 216
      · have e3 : parseU32s src 144 18 = .error .ioError :=
          parseU32s_err src 17 144 (by omega)
        simp only [DolHeader.parse, ho, ha, e3, Except.bind, Bind.bind]
      · obtain ⟨l, hl, _⟩ := parseU32s_ok src 144 18 (by omega)
        by_cases c4 : src.length < 220
        · have e4 := readU32_err_of src 216 (by omega)
          simp only [DolHeader.parse, ho, ha, hl, e4, Except.bind, Bind.bind]
        · obtain ⟨v1, h1⟩ := readU32_ok_of src 216 (by omega)
          by_cases c5 : src.length < 224
          · have e5 := readU32_err_of src 220 (by omega)
            simp only [DolHeader.parse, ho, ha, hl, h1, e5, Except.bind, Bind.bind]
          · obtain ⟨v2, h2⟩ := readU32_ok_of src 220 (by omega)
            have e6 := readU32_err_of src 224 (by omega)
            simp only [DolHeader.parse, ho, ha, hl, h1, h2, e6, Except.bind,
              Bind.bind]

/-! ## Wrapping layout arithmetic -/

theorem layoutKind_cons (s : Section) (rest : List Section) (cur : Nat) :
    layoutKind (s :: rest) cur =
      ((cur, s) :: (layoutKind rest (u32 (cur + u32 s.data.length))).1,
        (layoutKind rest (u32 (cur + u32 s.data.length))).2) := by
  cases h : layoutKind rest (u32 (cur + u32 s.data.length)) with
  | mk q fin => rw [layoutKind, h]

theorem layout_fin_mod (secs : List Section) (cur : Nat) (hcur : cur < 2 ^ 32) :
    (layoutKind secs cur).2 = (cur + sumLens secs) % 2 ^ 32 := by
  induction secs generalizing cur with
  | nil =>
    show cur = (cur + sumLens []) % 2 ^ 32
    rw [sumLens_nil]
    omega
  | cons s rest ih =>
    rw [layoutKind_cons]
    show (layoutKind rest (u32 (cur + u32 s.data.length))).2 = _
    rw [ih _ (u32_lt _), sumLens_cons]
    unfold u32
    omega

theorem layout_offsets_getD_mod (secs : List Section) (cur : Nat)
    (hcur : cur < 2 ^ 32) (i : Nat) (hi : i < secs.length) :
    (((layoutKind secs cur).1).map Prod.fst).getD i 0 =
      (cur + sumLens (secs.take i)) % 2 ^ 32 := by
  induction secs generalizing cur i with
  | nil => simp at hi
  | cons s rest ih =>
    rw [layoutKind_cons]
    cases i with
    | zero =>
      rw [List.map_cons, List.getD_cons_zero, List.take_zero, sumLens_nil]
      omega
    | succ i =>
      rw [List.map_cons, List.getD_cons_succ, List.take_succ_cons, sumLens_cons]
      rw [ih _ (u32_lt _) i (by simpa using hi)]
      unfold u32
      omega

/-! ## The claims -/

/-- C1 (counterexample): the round trip does not preserve a zero-length
section.  Writing a file holding one text section with an empty buffer
succeeds, but parsing the bytes back yields a file with no sections at
all, because the written header records length 0 for the slot and the
parser skips zero-length slots. -/
theorem c1_counterexample :
    (DolFile.write fEmptySec).2 = .ok () ∧
    DolFile.parse ((DolFile.write fEmptySec).1) = .ok ⟨[], 1, 2, 3⟩ ∧
    fEmptySec.sections ≠ [] := by
  refine ⟨by decide, by decide, by decide⟩

/-- C1 (amended): for every DolFile with at most 7 text and at most 11
data sections, all data buffers nonzero in length, all stored 32-bit
quantities in range, and total layout size below 2^32, decoding the
encoding yields exactly the text sections (in input order) followed by
the data sections (in input order) — a permutation of the original
section sequence — with the scalar fields preserved. -/
theorem c1_roundtrip (f : DolFile)
    (htc : (textSections f).length ≤ 7) (hdc : (dataSections f).length ≤ 11)
    (hnz : ∀ s ∈ f.sections, 0 < s.data.length)
    (haddr : ∀ s ∈ f.sections, s.address < 2 ^ 32)
    (hbs : f.bss_start < 2 ^ 32) (hbl : f.bss_length < 2 ^ 32)
    (hep : f.entry_point < 2 ^ 32)
    (hsz : 256 + sumLens f.sections < 2 ^ 32) :
    (DolFile.write f).2 = .ok () ∧
    DolFile.parse ((DolFile.write f).1) =
      .ok ⟨textSections f ++ dataSections f, f.bss_start, f.bss_length,
        f.entry_point⟩ ∧
    List.Perm (textSections f ++ dataSections f) f.sections :=
  ⟨write_ok_result f htc hdc,
    parse_write_roundtrip f htc hdc hnz haddr hbs hbl hep hsz,
    partition_perm f⟩

/-- C1 (witness): the round trip at a concrete mixed-kind file. -/
theorem c1_roundtrip_witness :
    (DolFile.write fMix).2 = .ok () ∧
    DolFile.parse ((DolFile.write fMix).1) =
      .ok ⟨textSections fMix ++ dataSections fMix, fMix.bss_start,
        fMix.bss_length, fMix.entry_point⟩ ∧
    List.Perm (textSections fMix ++ dataSections fMix) fMix.sections :=
  c1_roundtrip fMix (by decide) (by decide) (by decide) (by decide) (by decide)
    (by decide) (by decide) (by decide)

/-- C2 (counterexample): a short source is not an error.  The stream
`shortSrc` declares one text slot at offset 228 with length 4, but only 2
bytes exist there; `DolFile::parse` succeeds and returns a section whose
buffer holds just those 2 bytes. -/
theorem c2_counterexample :
    DolHeader.parse shortSrc =
      .ok ⟨228 :: List.replicate 17 0, List.replicate 18 0,
        4 :: List.replicate 17 0, 0, 0, 0⟩ ∧
    DolFile.parse shortSrc = .ok ⟨[⟨SectionKind.text, 0, [9, 9]⟩], 0, 0, 0⟩ := by
  refine ⟨by decide, by decide⟩

/-- C2 (amended): the loader never fails on a short source; each emitted
section's buffer holds `min length (src.length - offset)` bytes, i.e. the
declared count when available and silent truncation at end of input
otherwise. -/
theorem c2_truncation (src offs addrs lens : List Nat) (k : SectionKind) :
    (load_sections src offs addrs lens k).map (fun s => s.data.length) =
      ((zip3 offs addrs lens).filter fun t => 0 < t.2.2).map
        (fun t => min t.2.2 (src.length - t.1)) := by
  unfold load_sections
  rw [List.map_map]
  apply List.map_congr_left
  intro t _
  simp [readBytes, Function.comp]

/-- C3 (counterexample): a file over both capacity limits yields the
error naming Text, not the error naming Data, although its data-section
count exceeds 11 — so a Data-capacity violation alone does not determine
the reported kind. -/
theorem c3_counterexample :
    11 < (dataSections fOverBoth).length ∧
    (DolFile.write fOverBoth).2 ≠ .error (.tooManySections SectionKind.data) := by
  refine ⟨by decide, by decide⟩

/-- C3 (amended): if the text-section count exceeds 7, `DolFile::write`
fails with the capacity error naming Text (regardless of the data count);
if the text count is within bounds and the data count exceeds 11, it
fails with the capacity error naming Data.  In both cases the sink
receives zero bytes. -/
theorem c3_capacity (f : DolFile) :
    (7 < (textSections f).length →
      DolFile.write f = ([], .error (.tooManySections SectionKind.text))) ∧
    ((textSections f).length ≤ 7 → 11 < (dataSections f).length →
      DolFile.write f = ([], .error (.tooManySections SectionKind.data))) := by
  constructor
  · intro h
    unfold DolFile.write
    rw [if_pos (by omega)]
  · intro h1 h2
    unfold DolFile.write
    rw [if_neg (by omega), if_pos (by omega)]

/-- C3 (witness): the amended capacity statement applied to the concrete
file with 8 text and 12 data sections. -/
theorem c3_capacity_witness :
    DolFile.write fOverBoth = ([], .error (.tooManySections SectionKind.text)) :=
  (c3_capacity fOverBoth).1 (by decide)

theorem single_text_slot_length (a : Nat) (d : List Nat) :
    (computeHeader ⟨[⟨SectionKind.text, a, d⟩], 0, 0, 0⟩).section_lengths.getD 0 0 =
      u32 d.length := rfl

/-- C5 (counterexample): a slot's recorded length is not always the
section's buffer length.  For the file holding one text section of
exactly 2^32 bytes, slot 0 of the computed header records length 0 (the
`as u32` cast truncates), not 2^32. -/
theorem c5_counterexample :
    (computeHeader fHuge).section_lengths.getD 0 0 ≠
      (fHuge.sections.getD 0 defaultSection).data.length := by
  have h1 : (computeHeader fHuge).section_lengths.getD 0 0 =
      u32 ((List.replicate (2 ^ 32) (0 : Nat)).length) :=
    single_text_slot_length 0 _
  have h2 : (fHuge.sections.getD 0 defaultSection).data.length =
      ((List.replicate (2 ^ 32) (0 : Nat)).length) := rfl
  rw [h1, h2, List.length_replicate]
  unfold u32
  rw [Nat.mod_self]
  norm_num

/-- C5 (amended): for every DolFile within the capacity limits whose
total layout (0x100 plus all data lengths) stays below 2^32, the computed
header assigns text sections to slots 0..6 and data sections to slots
7..17 in order, with each used slot's offset equal to the contiguous
running cursor started at 0x100, its address equal to the section's
stored address, and its length equal to the section's buffer length,
while every unused slot keeps offset, address and length zero. -/
theorem c5_layout (f : DolFile)
    (htc : (textSections f).length ≤ 7) (hdc : (dataSections f).length ≤ 11)
    (hsz : 256 + sumLens f.sections < 2 ^ 32) :
    (∀ i, i < (textSections f).length →
      (computeHeader f).section_offsets.getD i 0 =
        256 + sumLens ((textSections f).take i) ∧
      (computeHeader f).section_addresses.getD i 0 =
        ((textSections f).getD i defaultSection).address ∧
      (computeHeader f).section_lengths.getD i 0 =
        ((textSections f).getD i defaultSection).data.length) ∧
    (∀ i, (textSections f).length ≤ i → i < 7 →
      (computeHeader f).section_offsets.getD i 0 = 0 ∧
      (computeHeader f).section_addresses.getD i 0 = 0 ∧
      (computeHeader f).section_lengths.getD i 0 = 0) ∧
    (∀ i, i < (dataSections f).length →
      (computeHeader f).section_offsets.getD (7 + i) 0 =
        256 + sumLens (textSections f) + sumLens ((dataSections f).take i) ∧
      (computeHeader f).section_addresses.getD (7 + i) 0 =
        ((dataSections f).getD i defaultSection).address ∧
      (computeHeader f).section_lengths.getD (7 + i) 0 =
        ((dataSections f).getD i defaultSection).data.length) ∧
    (∀ i, (dataSections f).length ≤ i → i < 11 →
      (computeHeader f).section_offsets.getD (7 + i) 0 = 0 ∧
      (computeHeader f).section_addresses.getD (7 + i) 0 = 0 ∧
      (computeHeader f).section_lengths.getD (7 + i) 0 = 0) := by
  have ce := computeHeader_exact f hsz
  have hTo : (offsetsFrom 256 (textSections f)).length = (textSections f).length :=
    offsetsFrom_length _ _
  have hDo : (offsetsFrom (256 + sumLens (textSections f)) (dataSections f)).length =
      (dataSections f).length := offsetsFrom_length _ _
  refine ⟨?_, ?_, ?_, ?_⟩
  · intro i hi
    rw [ce]
    refine ⟨?_, ?_, ?_⟩
    · rw [List.getD_append _ _ _ _ (by rw [slotFill_length _ _ (by omega)]; omega),
        slotFill_getD_lt _ _ _ (by omega)]
      exact offsetsFrom_getD _ _ _ hi
    · rw [List.getD_append _ _ _ _
        (by rw [slotFill_length _ _ (by rw [List.length_map]; omega)]; omega),
        slotFill_getD_lt _ _ _ (by rw [List.length_map]; omega)]
      exact getD_map' Section.address _ i defaultSection 0 rfl
    · rw [List.getD_append _ _ _ _
        (by rw [slotFill_length _ _ (by rw [List.length_map]; omega)]; omega),
        slotFill_getD_lt _ _ _ (by rw [List.length_map]; omega)]
      exact getD_map' (fun s => s.data.length) _ i defaultSection 0 rfl
  · intro i hge hlt
    rw [ce]
    refine ⟨?_, ?_, ?_⟩
    · rw [List.getD_append _ _ _ _ (by rw [slotFill_length _ _ (by omega)]; omega)]
      exact slotFill_getD_ge _ _ _ (by omega)
    · rw [List.getD_append _ _ _ _
        (by rw [slotFill_length _ _ (by rw [List.length_map]; omega)]; omega)]
      exact slotFill_getD_ge _ _ _ (by rw [List.length_map]; omega)
    · rw [List.getD_append _ _ _ _
        (by rw [slotFill_length _ _ (by rw [List.length_map]; omega)]; omega)]
      exact slotFill_getD_ge _ _ _ (by rw [List.length_map]; omega)
  · intro i hi
    rw [ce]
    refine ⟨?_, ?_, ?_⟩
    · rw [List.getD_append_right _ _ _ _ (by rw [slotFill_length _ _ (by omega)]; omega),
        show 7 + i - (slotFill (offsetsFrom 256 (textSections f)) 7).length = i from by
          rw [slotFill_length _ _ (by omega)]; omega,
        slotFill_getD_lt _ _ _ (by omega)]
      exact offsetsFrom_getD _ _ _ hi
    · rw [List.getD_append_right _ _ _ _
        (by rw [slotFill_length _ _ (by rw [List.length_map]; omega)]; omega),
        show 7 + i - (slotFill ((textSections f).map Section.address) 7).length = i from by
          rw [slotFill_length _ _ (by rw [List.length_map]; omega)]; omega,
        slotFill_getD_lt _ _ _ (by rw [List.length_map]; omega)]
      exact getD_map' Section.address _ i defaultSection 0 rfl
    · rw [List.getD_append_right _ _ _ _
        (by rw [slotFill_length _ _ (by rw [List.length_map]; omega)]; omega),
        show 7 + i - (slotFill ((textSections f).map fun s => s.data.length) 7).length = i
          from by rw [slotFill_length _ _ (by rw [List.length_map]; omega)]; omega,
        slotFill_getD_lt _ _ _ (by rw [List.length_map]; omega)]
      exact getD_map' (fun s => s.data.length) _ i defaultSection 0 rfl
  · intro i hge hlt
    rw [ce]
    refine ⟨?_, ?_, ?_⟩
    · rw [List.getD_append_right _ _ _ _ (by rw [slotFill_length _ _ (by omega)]; omega),
        show 7 + i - (slotFill (offsetsFrom 256 (textSections f)) 7).length = i from by
          rw [slotFill_length _ _ (by omega)]; omega]
      exact slotFill_getD_ge _ _ _ (by omega)
    · rw [List.getD_append_right _ _ _ _
        (by rw [slotFill_length _ _ (by rw [List.length_map]; omega)]; omega),
        show 7 + i - (slotFill ((textSections f).map Section.address) 7).length = i from by
          rw [slotFill_length _ _ (by rw [List.length_map]; omega)]; omega]
      exact slotFill_getD_ge _ _ _ (by rw [List.length_map]; omega)
    · rw [List.getD_append_right _ _ _ _
        (by rw [slotFill_length _ _ (by rw [List.length_map]; omega)]; omega),
        show 7 + i - (slotFill ((textSections f).map fun s => s.data.length) 7).length = i
          from by rw [slotFill_length _ _ (by rw [List.length_map]; omega)]; omega]
      exact slotFill_getD_ge _ _ _ (by rw [List.length_map]; omega)

/-- C5 (witness): the layout statement applied to the concrete mixed-kind
file. -/
theorem c5_layout_witness :
    (∀ i, i < (textSections fMix).length →
      (computeHeader fMix).section_offsets.getD i 0 =
        256 + sumLens ((textSections fMix).take i) ∧
      (computeHeader fMix).section_addresses.getD i 0 =
        ((textSections fMix).getD i defaultSection).address ∧
      (computeHeader fMix).section_lengths.getD i 0 =
        ((textSections fMix).getD i defaultSection).data.length) ∧
    (∀ i, (textSections fMix).length ≤ i → i < 7 →
      (computeHeader fMix).section_offsets.getD i 0 = 0 ∧
      (computeHeader fMix).section_addresses.getD i 0 = 0 ∧
      (computeHeader fMix).section_lengths.getD i 0 = 0) ∧
    (∀ i, i < (dataSections fMix).length →
      (computeHeader fMix).section_offsets.getD (7 + i) 0 =
        256 + sumLens (textSections fMix) + sumLens ((dataSections fMix).take i) ∧
      (computeHeader fMix).section_addresses.getD (7 + i) 0 =
        ((dataSections fMix).getD i defaultSection).address ∧
      (computeHeader fMix).section_lengths.getD (7 + i) 0 =
        ((dataSections fMix).getD i defaultSection).data.length) ∧
    (∀ i, (dataSections fMix).length ≤ i → i < 11 →
      (computeHeader fMix).section_offsets.getD (7 + i) 0 = 0 ∧
      (computeHeader fMix).section_addresses.getD (7 + i) 0 = 0 ∧
      (computeHeader fMix).section_lengths.getD (7 + i) 0 = 0) :=
  c5_layout fMix (by decide) (by decide) (by decide)

/-- C6: the write order is a stable partition of the input sections: it
is a permutation of the input sequence in which every text section comes
before every data section, and each kind's subsequence appears in input
order (it is a sublist of the input); under the capacity limits the write
then succeeds. -/
theorem c6_stable (f : DolFile) (htc : (textSections f).length ≤ 7)
    (hdc : (dataSections f).length ≤ 11) :
    (DolFile.write f).2 = .ok () ∧
    List.Perm (writeOrder f) f.sections ∧
    ∃ n, (∀ s ∈ (writeOrder f).take n, s.kind = SectionKind.text) ∧
      (∀ s ∈ (writeOrder f).drop n, s.kind = SectionKind.data) ∧
      List.Sublist ((writeOrder f).take n) f.sections ∧
      List.Sublist ((writeOrder f).drop n) f.sections := by
  refine ⟨write_ok_result f htc hdc, ?_, ?_⟩
  · rw [writeOrder_eq]
    exact partition_perm f
  · refine ⟨(textSections f).length, ?_, ?_, ?_, ?_⟩
    · rw [writeOrder_eq, List.take_left]
      exact mem_textSections_kind f
    · rw [writeOrder_eq, List.drop_left]
      exact mem_dataSections_kind f
    · rw [writeOrder_eq, List.take_left]
      exact textSections_sublist f
    · rw [writeOrder_eq, List.drop_left]
      exact dataSections_sublist f

/-- C4: for every header with its three arrays of length 18,
`DolHeader::write` emits exactly 256 bytes, and byte `i` of the output
equals the specified wire format: the 18 big-endian offsets, then the 18
addresses, then the 18 lengths, then `bss_start`, `bss_length` and
`entry_point`, followed by 28 zero bytes of padding.  The output is a
pure function of the header value by construction. -/
theorem c4_header_layout (h : DolHeader)
    (h1 : h.section_offsets.length = 18) (h2 : h.section_addresses.length = 18)
    (h3 : h.section_lengths.length = 18) :
    (h.write).length = 256 ∧
    ∀ i, i < 256 → (h.write).getD i 0 = headerByteSpec h i := by
  refine ⟨DolHeader.write_length h h1 h2 h3, ?_⟩
  intro i hi
  have hA : ((h.section_offsets.map u32be).flatten).length = 72 := by
    rw [flatten_u32be_length, h1]
  have hB : ((h.section_addresses.map u32be).flatten).length = 72 := by
    rw [flatten_u32be_length, h2]
  have hC : ((h.section_lengths.map u32be).flatten).length = 72 := by
    rw [flatten_u32be_length, h3]
  unfold DolHeader.write headerByteSpec
  simp only [List.append_assoc]
  by_cases c1 : i < 72
  · rw [List.getD_append _ _ _ _ (by omega), flatten_u32be_getD, h1,
      if_pos (by omega), if_pos c1]
  · rw [List.getD_append_right _ _ _ _ (by omega), hA, if_neg c1]
    by_cases c2 : i < 144
    · rw [List.getD_append _ _ _ _ (by omega), flatten_u32be_getD, h2,
        if_pos (by omega), if_pos (by omega)]
    · rw [List.getD_append_right _ _ _ _ (by omega), hB, if_neg (by omega)]
      have hi72 : i - 72 - 72 = i - 144 := by omega
      rw [hi72]
      by_cases c3 : i < 216
      · rw [List.getD_append _ _ _ _ (by omega), flatten_u32be_getD, h3,
          if_pos (by omega), if_pos (by omega)]
      · rw [List.getD_append_right _ _ _ _ (by omega), hC, if_neg (by omega)]
        have hi144 : i - 144 - 72 = i - 216 := by omega
        rw [hi144]
        by_cases c4 : i < 220
        · rw [List.getD_append _ _ _ _ (by rw [u32be_length]; omega),
            u32be_getD _ _ (by omega), if_pos (by omega)]
          rw [Nat.mod_eq_of_lt (show i - 216 < 4 by omega)]
        · rw [List.getD_append_right _ _ _ _ (by rw [u32be_length]; omega),
            u32be_length, if_neg (by omega)]
          have hi216 : i - 216 - 4 = i - 220 := by omega
          rw [hi216]
          by_cases c5 : i < 224
          · rw [List.getD_append _ _ _ _ (by rw [u32be_length]; omega),
              u32be_getD _ _ (by omega), if_pos (by omega)]
            rw [Nat.mod_eq_of_lt (show i - 220 < 4 by omega)]
          · rw [List.getD_append_right _ _ _ _ (by rw [u32be_length]; omega),
              u32be_length, if_neg (by omega)]
            have hi220 : i - 220 - 4 = i - 224 := by omega
            rw [hi220]
            by_cases c6 : i < 228
            · rw [List.getD_append _ _ _ _ (by rw [u32be_length]; omega),
                u32be_getD _ _ (by omega), if_pos (by omega)]
              rw [Nat.mod_eq_of_lt (show i - 224 < 4 by omega)]
            · rw [List.getD_append_right _ _ _ _ (by rw [u32be_length]; omega),
                u32be_length, if_neg (by omega)]
              exact replicate_zero_getD _ _

/-- C4 (witness): the byte-layout statement applied to the header of the
crate's `write_dol_header` test. -/
theorem c4_header_layout_witness :
    (fixtureHeader.write).length = 256 ∧
    ∀ i, i < 256 → (fixtureHeader.write).getD i 0 = headerByteSpec fixtureHeader i :=
  c4_header_layout fixtureHeader (by decide) (by decide) (by decide)

theorem two_text_queue (a1 a2 : Nat) (d e : List Nat) :
    writeQueue ⟨[⟨SectionKind.text, a1, d⟩, ⟨SectionKind.text, a2, e⟩], 0, 0, 0⟩ =
      [(256, ⟨SectionKind.text, a1, d⟩),
        (u32 (256 + u32 d.length), ⟨SectionKind.text, a2, e⟩)] := rfl

theorem two_text_order (a1 a2 : Nat) (d e : List Nat) :
    writeOrder ⟨[⟨SectionKind.text, a1, d⟩, ⟨SectionKind.text, a2, e⟩], 0, 0, 0⟩ =
      [⟨SectionKind.text, a1, d⟩, ⟨SectionKind.text, a2, e⟩] := rfl

/-- C7 (counterexample): with a 2^32-byte first section the sink position
does not match the second section's assigned offset.  The layout cursor
truncates the first length to 0, so the second section is assigned offset
0x100 again, while the sink position before it is 0x100 + 2^32. -/
theorem c7_counterexample :
    ((writeQueue fHuge2).getD 1 (0, defaultSection)).1 ≠
      256 + sumLens ((writeOrder fHuge2).take 1) := by
  have h1 : ((writeQueue fHuge2).getD 1 (0, defaultSection)).1 =
      u32 (256 + u32 ((List.replicate (2 ^ 32) (0 : Nat)).length)) := by
    rw [show writeQueue fHuge2 =
      [(256, ⟨SectionKind.text, 0, List.replicate (2 ^ 32) 0⟩),
        (u32 (256 + u32 ((List.replicate (2 ^ 32) (0 : Nat)).length)),
          ⟨SectionKind.text, 0, [7]⟩)] from two_text_queue 0 0 _ _]
    rfl
  have h2 : sumLens ((writeOrder fHuge2).take 1) =
      (List.replicate (2 ^ 32) (0 : Nat)).length := by
    rw [show writeOrder fHuge2 =
      [⟨SectionKind.text, 0, List.replicate (2 ^ 32) 0⟩,
        ⟨SectionKind.text, 0, [7]⟩] from two_text_order 0 0 _ _]
    rw [List.take_succ_cons, List.take_zero, sumLens_cons, sumLens_nil]
    exact Nat.add_zero _
  rw [h1, h2, List.length_replicate]
  unfold u32
  rw [Nat.mod_self]
  norm_num

/-- C7 (amended): for every DolFile within the capacity limits whose
total layout (0x100 plus all data lengths) stays below 2^32, the sink
position before streaming each queued section equals exactly that
section's assigned offset, so every gap-fill count is zero and the output
is precisely the header followed by the section buffers back to back. -/
theorem c7_contiguous (f : DolFile)
    (htc : (textSections f).length ≤ 7) (hdc : (dataSections f).length ≤ 11)
    (hsz : 256 + sumLens f.sections < 2 ^ 32) :
    (∀ i, i < (writeQueue f).length →
      ((writeQueue f).getD i (0, defaultSection)).1 =
        256 + sumLens ((writeOrder f).take i) ∧
      padCount ((writeQueue f).getD i (0, defaultSection)).1
        (256 + sumLens ((writeOrder f).take i)) = 0) ∧
    (DolFile.write f).1 = (computeHeader f).write ++ concatData (writeOrder f) := by
  have hq := writeQueue_exact f hsz
  have hwo := writeOrder_eq f
  have hql : (writeQueue f).length =
      (textSections f ++ dataSections f).length := by
    rw [hq, List.length_zip, offsetsFrom_length, Nat.min_self]
  constructor
  · intro i hi
    have hoff : ((writeQueue f).getD i (0, defaultSection)).1 =
        256 + sumLens ((writeOrder f).take i) := by
      rw [← getD_map' Prod.fst (writeQueue f) i (0, defaultSection) 0 rfl]
      rw [hq, List.map_fst_zip _ _ (le_of_eq (offsetsFrom_length _ _)), hwo]
      exact offsetsFrom_getD _ _ _ (by omega)
    exact ⟨hoff, by rw [hoff]; exact padCount_self _⟩
  · rw [write_ok f htc hdc hsz, hwo]

/-- C7 (witness): the contiguity statement applied to the concrete
mixed-kind file. -/
theorem c7_contiguous_witness :
    (∀ i, i < (writeQueue fMix).length →
      ((writeQueue fMix).getD i (0, defaultSection)).1 =
        256 + sumLens ((writeOrder fMix).take i) ∧
      padCount ((writeQueue fMix).getD i (0, defaultSection)).1
        (256 + sumLens ((writeOrder fMix).take i)) = 0) ∧
    (DolFile.write fMix).1 =
      (computeHeader fMix).write ++ concatData (writeOrder fMix) :=
  c7_contiguous fMix (by decide) (by decide) (by decide)

theorem computeHeader_lengths (f : DolFile) :
    (computeHeader f).section_lengths =
      slotFill ((textSections f).map fun s => u32 s.data.length) 7 ++
        slotFill ((dataSections f).map fun s => u32 s.data.length) 11 := rfl

theorem computeHeader_offsets (f : DolFile) :
    (computeHeader f).section_offsets =
      slotFill (((layoutKind (textSections f) 256).1).map Prod.fst) 7 ++
        slotFill (((layoutKind (dataSections f)
          (layoutKind (textSections f) 256).2).1).map Prod.fst) 11 := rfl

/-- C10: the header table is computed with unsigned 32-bit wraparound
arithmetic.  For every file within the capacity limits the write
succeeds with no error; each used slot's recorded length is the buffer
length reduced modulo 2^32, each used slot's offset is the cumulative
sum 0x100 + (lengths so far) reduced modulo 2^32, and for any section of
at least 2^32 bytes the recorded length disagrees with the true buffer
length. -/
theorem c10_wraparound (f : DolFile)
    (htc : (textSections f).length ≤ 7) (hdc : (dataSections f).length ≤ 11) :
    (DolFile.write f).2 = .ok () ∧
    (∀ i, i < (textSections f).length →
      (computeHeader f).section_lengths.getD i 0 =
        ((textSections f).getD i defaultSection).data.length % 2 ^ 32 ∧
      (computeHeader f).section_offsets.getD i 0 =
        (256 + sumLens ((textSections f).take i)) % 2 ^ 32) ∧
    (∀ i, i < (dataSections f).length →
      (computeHeader f).section_lengths.getD (7 + i) 0 =
        ((dataSections f).getD i defaultSection).data.length % 2 ^ 32 ∧
      (computeHeader f).section_offsets.getD (7 + i) 0 =
        (256 + sumLens (textSections f) + sumLens ((dataSections f).take i)) %
          2 ^ 32) ∧
    (∀ s ∈ f.sections, 2 ^ 32 ≤ s.data.length →
      u32 s.data.length ≠ s.data.length) := by
  have hstart : (layoutKind (textSections f) 256).2 < 2 ^ 32 := by
    rw [layout_fin_mod _ _ (by norm_num)]
    exact Nat.mod_lt _ (by norm_num)
  refine ⟨write_ok_result f htc hdc, ?_, ?_, ?_⟩
  · intro i hi
    constructor
    · rw [computeHeader_lengths,
        List.getD_append _ _ _ _
          (by rw [slotFill_length _ _ (by rw [List.length_map]; omega)]; omega),
        slotFill_getD_lt _ _ _ (by rw [List.length_map]; omega),
        getD_map' (fun s => u32 s.data.length) _ i defaultSection 0
          (by simp [u32, defaultSection])]
      rfl
    · rw [computeHeader_offsets,
        List.getD_append _ _ _ _
          (by rw [slotFill_length _ _
            (by rw [List.length_map, layout_queue_length]; omega)]; omega),
        slotFill_getD_lt _ _ _
          (by rw [List.length_map, layout_queue_length]; omega)]
      exact layout_offsets_getD_mod _ _ (by norm_num) i hi
  · intro i hi
    constructor
    · rw [computeHeader_lengths,
        List.getD_append_right _ _ _ _
          (by rw [slotFill_length _ _ (by rw [List.length_map]; omega)]; omega),
        show 7 + i -
            (slotFill ((textSections f).map fun s => u32 s.data.length) 7).length
            = i from by
          rw [slotFill_length _ _ (by rw [List.length_map]; omega)]; omega,
        slotFill_getD_lt _ _ _ (by rw [List.length_map]; omega),
        getD_map' (fun s => u32 s.data.length) _ i defaultSection 0
          (by simp [u32, defaultSection])]
      rfl
    · rw [computeHeader_offsets,
        List.getD_append_right _ _ _ _
          (by rw [slotFill_length _ _
            (by rw [List.length_map, layout_queue_length]; omega)]; omega),
        show 7 + i -
            (slotFill (((layoutKind (textSections f) 256).1).map Prod.fst) 7).length
            = i from by
          rw [slotFill_length _ _
            (by rw [List.length_map, layout_queue_length]; omega)]; omega,
        slotFill_getD_lt _ _ _
          (by rw [List.length_map, layout_queue_length]; omega),
        layout_offsets_getD_mod _ _ hstart i hi,
        layout_fin_mod _ _ (by norm_num)]
      omega
  · intro s _ h32
    have := u32_lt s.data.length
    omega

/-- C10 (witness): the wraparound statement applied to the concrete
mixed-kind file. -/
theorem c10_wraparound_witness :
    (DolFile.write fMix).2 = .ok () ∧
    (∀ i, i < (textSections fMix).length →
      (computeHeader fMix).section_lengths.getD i 0 =
        ((textSections fMix).getD i defaultSection).data.length % 2 ^ 32 ∧
      (computeHeader fMix).section_offsets.getD i 0 =
        (256 + sumLens ((textSections fMix).take i)) % 2 ^ 32) ∧
    (∀ i, i < (dataSections fMix).length →
      (computeHeader fMix).section_lengths.getD (7 + i) 0 =
        ((dataSections fMix).getD i defaultSection).data.length % 2 ^ 32 ∧
      (computeHeader fMix).section_offsets.getD (7 + i) 0 =
        (256 + sumLens (textSections fMix) +
          sumLens ((dataSections fMix).take i)) % 2 ^ 32) ∧
    (∀ s ∈ fMix.sections, 2 ^ 32 ≤ s.data.length →
      u32 s.data.length ≠ s.data.length) :=
  c10_wraparound fMix (by decide) (by decide)

/-- C9: `DolFile::parse` never reports a capacity error: for every input
stream, parsing succeeds exactly when the stream holds at least the 228
bytes of header fields (no structural validation of the offsets,
addresses or lengths takes place), and its only failure is the I/O error
for a stream too short to supply them. -/
theorem c9_parse_no_capacity_error (src : List Nat) :
    (∀ k, DolFile.parse src ≠ .error (.tooManySections k)) ∧
    ((∃ f, DolFile.parse src = .ok f) ↔ 228 ≤ src.length) := by
  by_cases h : 228 ≤ src.length
  · obtain ⟨hd, hhd⟩ := headerParse_ok_of src h
    have hparse : DolFile.parse src = .ok
        ⟨load_sections src (hd.section_offsets.take 7)
            (hd.section_addresses.take 7) (hd.section_lengths.take 7)
            SectionKind.text ++
          load_sections src ((hd.section_offsets.drop 7).take 11)
            ((hd.section_addresses.drop 7).take 11)
            ((hd.section_lengths.drop 7).take 11) SectionKind.data,
          hd.bss_start, hd.bss_length, hd.entry_point⟩ := by
      simp only [DolFile.parse, hhd, Except.bind, Bind.bind, Pure.pure,
        Except.pure]
    refine ⟨?_, ?_⟩
    · intro k hcon
      rw [hparse] at hcon
      exact Except.noConfusion hcon
    · exact ⟨fun _ => h, fun _ => ⟨_, hparse⟩⟩
  · have herr : DolFile.parse src = .error .ioError := by
      have he := headerParse_err_of src (by omega)
      simp only [DolFile.parse, he, Except.bind, Bind.bind]
    refine ⟨?_, ?_⟩
    · intro k hcon
      rw [herr] at hcon
      have := Except.error.inj hcon
      exact Error.noConfusion this
    · constructor
      · rintro ⟨f, hf⟩
        rw [herr] at hf
        exact Except.noConfusion hf
      · intro hc
        omega

/-- C8: a slot with declared length 0 produces no Section, whatever its
offset and address hold: overwriting the offset and address of a
zero-length slot leaves the loader output unchanged, and the number of
sections produced equals the number of slots with positive length. -/
theorem c8_zero_slots (src offs addrs lens : List Nat) (k : SectionKind)
    (i x y : Nat) (hlo : offs.length = lens.length)
    (hla : addrs.length = lens.length) (hz : lens.getD i 0 = 0) :
    load_sections src (offs.set i x) (addrs.set i y) lens k =
      load_sections src offs addrs lens k ∧
    (load_sections src offs addrs lens k).length =
      (lens.filter fun l => 0 < l).length :=
  ⟨load_set_zero src k x y i offs addrs lens hz, by
    unfold load_sections
    rw [List.length_map]
    exact zip3_filter_pos_length lens offs addrs hlo hla⟩

/-- C8 (witness): the zero-slot statement at a concrete loader call whose
first slot has length 0. -/
theorem c8_zero_slots_witness :
    load_sections (List.replicate 16 5) ([10, 20].set 0 99) ([1, 2].set 0 98)
        [0, 3] SectionKind.text =
      load_sections (List.replicate 16 5) [10, 20] [1, 2] [0, 3]
        SectionKind.text ∧
    (load_sections (List.replicate 16 5) [10, 20] [1, 2] [0, 3]
        SectionKind.text).length = ([0, 3].filter fun l => 0 < l).length :=
  c8_zero_slots (List.replicate 16 5) [10, 20] [1, 2] [0, 3] SectionKind.text
    0 99 98 (by decide) (by decide) (by decide)

/-- C6 (witness): the stable-partition statement applied to the concrete
mixed-kind file (data, text, data). -/
theorem c6_stable_witness :
    (DolFile.write fMix).2 = .ok () ∧
    List.Perm (writeOrder fMix) fMix.sections ∧
    ∃ n, (∀ s ∈ (writeOrder fMix).take n, s.kind = SectionKind.text) ∧
      (∀ s ∈ (writeOrder fMix).drop n, s.kind = SectionKind.data) ∧
      List.Sublist ((writeOrder fMix).take n) fMix.sections ∧
      List.Sublist ((writeOrder fMix).drop n) fMix.sections :=
  c6_stable fMix (by decide) (by decide)

end Dol
